import Mathlib

/-!
Verification of the ReactiveWTHN rendering core against its specification.

The definitions below are a shallow embedding of the repository's source:

* `Sched`, `schedule`, `flush` embed `src/renderer/batch.ts` (`BatchScheduler`).
  Callbacks are represented by identities (`Nat`); identity-based `Set`
  deduplication becomes first-occurrence insertion into a list.  A callback's
  behaviour during a flush (which further callbacks it schedules, whether it
  throws) is supplied as an environment `beh : Nat → List Nat × Bool`.
* `Instr`, `createBinding`, `renderWithCache`, `renderDynamic`, `mount` embed
  the structural part of `src/renderer/index.ts` (`DOMRenderer`).  DOM nodes
  are identities (`Nat`) allocated from a counter; object identity of
  instructions (the `WeakMap` key) is an explicit `iid` field.
* `Item`, `itemsEqual`, `forStep` and friends embed the body of the effect set
  up by `DOMRenderer.renderForBinding` (lines 170-264) together with the
  `itemsEqual` helper; `applyScheduled` embeds the single scheduled closure
  `() => { removals.forEach(...); updates.forEach(...) }` with the host DOM's
  `insertBefore`/`removeChild` semantics, including the fact that a thrown
  `TypeError` (null parent of the reference node) aborts the rest of that one
  closure and is then caught by the scheduler's per-callback `try`/`catch`.
-/

/-- State of `BatchScheduler` (batch.ts lines 1-48): the insertion-ordered
deduplicated pending set, and the two flags.  `isScheduled = true` stands for
"a microtask invoking `flush` has been queued". -/
structure Sched where
  pending : List Nat
  isFlushing : Bool
  isScheduled : Bool
deriving DecidableEq, Repr

/-- The freshly constructed singleton scheduler. -/
def initSched : Sched := ⟨[], false, false⟩

/-- `BatchScheduler.schedule` (batch.ts lines 16-23): `pending.add(update)`
(a no-op when the same reference is already pending), then queue a microtask
flush unless one is already queued or a flush is running. -/
def schedule (s : Sched) (f : Nat) : Sched :=
  let s1 : Sched :=
    if f ∈ s.pending then s else { s with pending := s.pending ++ [f] }
  if ¬s1.isScheduled ∧ ¬s1.isFlushing then { s1 with isScheduled := true } else s1

/-- A sequence of `schedule` calls, in order. -/
def scheduleMany (s : Sched) (fs : List Nat) : Sched :=
  fs.foldl schedule s

/-- The loop `for (const update of updates) { try { update() } catch ... }`
(batch.ts lines 34-40).  Running callback `f` performs the `schedule` calls
`(beh f).1` in order; `(beh f).2 = true` means it then throws, which is caught
and reported.  Returns the final state, the callbacks that were invoked, and
the callbacks whose exception was caught and reported. -/
def runUpdates (beh : Nat → List Nat × Bool) :
    List Nat → Sched → Sched × List Nat × List Nat
  | [], s => (s, [], [])
  | f :: fs, s =>
    let s1 := (beh f).1.foldl schedule s
    let r := runUpdates beh fs s1
    (r.1, f :: r.2.1, if (beh f).2 then f :: r.2.2 else r.2.2)

/-- `BatchScheduler.flush` (batch.ts lines 25-48): return immediately when
already flushing or nothing is pending; otherwise snapshot the pending set,
clear it, run every snapshotted callback under `try`/`catch`, and if new work
was scheduled during the pass, queue another microtask flush. -/
def flush (beh : Nat → List Nat × Bool) (s : Sched) :
    Sched × List Nat × List Nat :=
  if s.isFlushing ∨ s.pending = [] then (s, [], [])
  else
    let updates := s.pending
    let s1 : Sched := { pending := [], isFlushing := true, isScheduled := false }
    let r := runUpdates beh updates s1
    let s2 : Sched := { r.1 with isFlushing := false }
    let s3 : Sched :=
      if s2.pending ≠ [] then { s2 with isScheduled := true } else s2
    (s3, r.2.1, r.2.2)

/-- The subsequence of first occurrences of a list: the order in which a
`Set` iterated after these insertions yields its elements. -/
def firstOccs : List Nat → List Nat
  | [] => []
  | f :: fs => f :: firstOccs (fs.filter (· ≠ f))
termination_by l => l.length
decreasing_by
  simp only [List.length_cons]
  exact Nat.lt_succ_of_le (fs.length_filter_le _)

/-- Bindings of the instruction model (`src/ir/index.ts` lines 32-101).
Reactive cells, DOM nodes, elements and event handlers are all represented by
identities (`Nat`).  The `forB`/`ifB` variants additionally carry the structural
fields the renderer consults (`parent`, `anchor`); `trackBy`/`template` of a
for-binding are modelled separately in `ForCfg` since they are functions. -/
inductive BindingE where
  | text (sig : Nat) (node : Nat)
  | attr (name : String) (sig : Nat) (element : Nat)
  | cls (name : String) (sig : Nat) (element : Nat)
  | style (prop : String) (sig : Nat) (element : Nat)
  | event (name : String) (handler : Nat) (element : Nat)
  | forB (items : Nat) (parent : Nat) (anchor : Nat)
  | ifB (condition : Nat) (parent : Nat) (anchor : Nat)
deriving DecidableEq, Repr

/-- `b.type === 'for'` — the predicate used by `bindings.find` in
`DOMRenderer.renderDynamic` (line 67). -/
def BindingE.isFor : BindingE → Bool
  | .forB _ _ _ => true
  | _ => false

/-- The `anchor` field of a for-binding (`renderForBinding` returns
`[binding.anchor]`, line 267). -/
def forAnchor : BindingE → Nat
  | .forB _ _ a => a
  | _ => 0

/-- Render instructions (`src/ir/index.ts` lines 3-30).  `iid` stands for the
JavaScript object identity of the instruction (the `WeakMap` cache key):
distinct instruction objects have distinct `iid`s.  A static instruction wraps
an already-constructed node `element`; a dynamic one carries its target node,
whether the target is an `Element` (the `target instanceof Element` test of
line 77), its bindings and its children. -/
inductive Instr where
  | static (iid : Nat) (element : Nat)
  | dynamic (iid : Nat) (target : Nat) (targetIsElement : Bool)
      (bindings : List BindingE) (children : List Instr)
deriving Repr

/-- The cache key of an instruction: its object identity. -/
def Instr.iid : Instr → Nat
  | .static i _ => i
  | .dynamic i _ _ _ _ => i

/-- Renderer state: the `WeakMap<NodeInstruction, DOMCache>` (index.ts line
11), as an association list from instruction identity to the cached
`{ nodes, cleanup }`, plus a fresh-node allocator standing for the host
document's node creation (`cloneNode` produces a node the document has never
seen). -/
structure RState where
  cache : List (Nat × (List Nat × List BindingE))
  nextNode : Nat
deriving Repr

/-- `this.cache.get(instruction)`. -/
def cacheGet (c : List (Nat × (List Nat × List BindingE))) (k : Nat) :
    Option (List Nat × List BindingE) :=
  (c.find? (fun kv => kv.1 == k)).map (·.2)

/-- `this.cache.set(instruction, cache)`: overwrite when the key is present,
append otherwise. -/
def cacheSet (c : List (Nat × (List Nat × List BindingE))) (k : Nat)
    (v : List Nat × List BindingE) : List (Nat × (List Nat × List BindingE)) :=
  if c.any (fun kv => kv.1 == k) then
    c.map (fun kv => if kv.1 == k then (k, v) else kv)
  else c ++ [(k, v)]

/-- `DOMRenderer.createBinding` (index.ts lines 88-101): the switch handles
the `text`, `attribute`, `class`, `style` and `event` cases, returning the
disposer of the handler it creates (represented here by the binding itself);
every other binding kind — in particular `if` — matches no case and the
function returns `undefined`. -/
def createBinding : BindingE → Option BindingE
  | BindingE.text s n => some (BindingE.text s n)
  | BindingE.attr n s e => some (BindingE.attr n s e)
  | BindingE.cls n s e => some (BindingE.cls n s e)
  | BindingE.style p s e => some (BindingE.style p s e)
  | BindingE.event n h e => some (BindingE.event n h e)
  | BindingE.forB _ _ _ => none
  | BindingE.ifB _ _ _ => none

mutual

/-- `DOMRenderer.renderWithCache` (index.ts lines 42-61): return the cached
materialization when the instruction identity has one; otherwise build nodes
and cleanup (for a static instruction, `cloneNode(true)` — a fresh node), store
them in the cache, and return them.  Result: (new state, nodes, cleanup
handlers).  The source performs the cache lookup before inspecting
`instruction.type`; the lookup is pure, so the two matches commute and they
are written here with the instruction outermost.  The dynamic branch inlines
the body of `renderDynamic` (so that the recursion is structural); the
standalone `renderDynamic` below repeats it verbatim and
`renderWithCache_dynamic_uncached` proves the two agree. -/
def renderWithCache (st : RState) (inst : Instr) :
    RState × List Nat × List BindingE :=
  match inst with
  | .static iid _ =>
    match cacheGet st.cache iid with
    | some c => (st, c)
    | none =>
      (⟨cacheSet st.cache iid ([st.nextNode], []), st.nextNode + 1⟩,
        [st.nextNode], [])
  | .dynamic iid target tIsEl bindings children =>
    match cacheGet st.cache iid with
    | some c => (st, c)
    | none =>
      let r :=
        match bindings.find? BindingE.isFor with
        | some fb => (st, [forAnchor fb], [fb])
        | none =>
          let handlers := bindings.filterMap createBinding
          if tIsEl = true ∧ 0 < children.length then
            let rc := renderMany st children
            (rc.1, [target], handlers ++ rc.2.2)
          else (st, [target], handlers)
      (⟨cacheSet r.1.cache iid r.2, r.1.nextNode⟩, r.2)

/-- The `children.forEach` loop of `renderDynamic` (lines 78-82) and the
`instructions.forEach` loop of `renderForBinding` (lines 206-210): materialize
each instruction in order, collecting nodes and cleanup. -/
def renderMany (st : RState) (insts : List Instr) :
    RState × List Nat × List BindingE :=
  match insts with
  | [] => (st, [], [])
  | i :: rest =>
    let r := renderWithCache st i
    let rr := renderMany r.1 rest
    (rr.1, r.2.1 ++ rr.2.1, r.2.2 ++ rr.2.2)

end

/-- `DOMRenderer.renderDynamic` (index.ts lines 63-86): if some binding has
`type === 'for'`, the first such binding is handed to `renderForBinding`
(which registers one effect — its disposer is the single cleanup — and
returns `[binding.anchor]`) and the function returns immediately; otherwise
one handler per binding is created via `createBinding`, the children are
materialized and appended to the target when it is an `Element`, and the
target itself is returned. -/
def renderDynamic (st : RState) (target : Nat) (tIsEl : Bool)
    (bindings : List BindingE) (children : List Instr) :
    RState × List Nat × List BindingE :=
  match bindings.find? BindingE.isFor with
  | some fb => (st, [forAnchor fb], [fb])
  | none =>
    let handlers := bindings.filterMap createBinding
    if tIsEl = true ∧ 0 < children.length then
      let rc := renderMany st children
      (rc.1, [target], handlers ++ rc.2.2)
    else (st, [target], handlers)

/-- `DOMRenderer.mount` (index.ts lines 19-32): materialize the instruction
and append its nodes to the container.  Result: (new state, container
children, produced nodes, cleanup handlers). -/
def mount (st : RState) (inst : Instr) (container : List Nat) :
    RState × List Nat × List Nat × List BindingE :=
  let r := renderWithCache st inst
  (r.1, container ++ r.2.1, r.2.1, r.2.2)

/-- The tail of the disposer returned by `mount` (line 30):
`this.cache = new WeakMap()`. -/
def disposeCache (st : RState) : RState :=
  ⟨[], st.nextNode⟩

/-- An if-instruction exactly as `DOMBuilder.if` constructs it (ir/index.ts
lines 238-263): a dynamic node (identity 5) whose target is the wrapper div
(node 50) containing the anchor comment (node 51), with the single `if`
binding on condition cell 7 and no children. -/
def ifInstr : Instr :=
  .dynamic 5 50 true [.ifB 7 50 51] []

/-- A static instruction (object identity 7) wrapping element node 500. -/
def staticInstr : Instr :=
  .static 7 500

/-- A mutation of the live document's text content at a node identity: the
store maps node identities to their text. -/
def setText (store : Nat → String) (n : Nat) (v : String) : Nat → String :=
  fun m => if m = n then v else store m

/-- A JavaScript value as `itemsEqual` (index.ts lines 276-287) observes it:
`ref` is its reference identity (`===` on two values of the same `ref` is
true; primitives with equal value share a `ref`), `isObj` is
`typeof x === 'object'`, `isNull` distinguishes `null`, and `fields` are the
own keys with the identities of their values (`none` = `undefined`). -/
structure Item where
  ref : Nat
  isObj : Bool
  isNull : Bool
  fields : List (String × Option Nat)
deriving DecidableEq, Repr

/-- Property read `(a as any)[key]`: the value identity under the key, or
`undefined` (`none`) when the key is absent. -/
def jsGet (a : Item) (k : String) : Option Nat :=
  match a.fields.find? (fun kv => kv.1 == k) with
  | some kv => kv.2
  | none => none

/-- `itemsEqual` (index.ts lines 276-287): reference equality, else false for
non-objects or nulls, else equal own-key counts and, for every key of `a`,
`a[key] === b[key]`. -/
def itemsEqual (a b : Item) : Bool :=
  if a.ref == b.ref then true
  else if !a.isObj || !b.isObj then false
  else if a.isNull || b.isNull then false
  else if a.fields.length != b.fields.length then false
  else a.fields.all (fun kv => jsGet a kv.1 == jsGet b kv.1)

/-- One entry of the for-binding's keyed cache `itemMap` (index.ts lines
163-168): the materialized nodes, the cleanup handlers, the last-seen item
and the instructions that built it. -/
structure Entry where
  nodes : List Nat
  cleanup : List BindingE
  item : Item
  instructions : List Instr
deriving Repr

/-- `itemMap.get(key)`. -/
def mapGet (m : List (Nat × Entry)) (k : Nat) : Option Entry :=
  (m.find? (fun kv => kv.1 == k)).map (·.2)

/-- `itemMap.set(key, entry)`: JS `Map` semantics — overwrite in place when
the key exists (keeping its iteration position), append otherwise. -/
def mapSet (m : List (Nat × Entry)) (k : Nat) (v : Entry) :
    List (Nat × Entry) :=
  if m.any (fun kv => kv.1 == k) then
    m.map (fun kv => if kv.1 == k then (k, v) else kv)
  else m ++ [(k, v)]

/-- The function-valued fields of a `ForBinding` (ir/index.ts lines 83-91):
the user-supplied `trackBy`, the item `template`, and the anchor comment
node. -/
structure ForCfg where
  trackBy : Item → Nat
  template : Item → List Instr
  anchor : Nat

/-- A structural mutation scheduled by the for-binding's effect: the closure
`() => referenceNode.parentNode!.insertBefore(node, referenceNode)`
(index.ts lines 228 and 237). -/
inductive Mut where
  | insertBefore (node : Nat) (ref : Nat)
deriving DecidableEq, Repr

/-- `array.splice(i, 1)`. -/
def spliceOut (l : List Nat) (i : Nat) : List Nat :=
  l.take i ++ l.drop (i + 1)

/-- `array.splice(i, 0, x)` (an index past the end appends). -/
def spliceIn (l : List Nat) (i : Nat) (x : Nat) : List Nat :=
  l.take i ++ x :: l.drop i

/-- The `entry.nodes.forEach` position loop (index.ts lines 220-240) for the
nodes of one item, starting at `nodeIndex = 0`: compute each node's desired
index `index + nodeIndex` in the simulated sibling list `cur`, splice the
simulated list, and schedule an insert/move whose reference node is read from
the simulated list (falling back to the anchor).  The push of the closure is
guarded by `if (referenceNode.parentNode)` — in this model, by the reference
node being in the real child list `dom` as it is at effect time (the anchor
always is). -/
def posLoop (anchor : Nat) (dom : List Nat) (index : Nat) :
    List Nat → Nat → List Nat → List Mut → List Nat × List Mut
  | [], _, cur, upd => (cur, upd)
  | n :: rest, nodeIndex, cur, upd =>
    let desired := index + nodeIndex
    if n ∈ cur then
      if cur.indexOf n = desired then
        posLoop anchor dom index rest (nodeIndex + 1) cur upd
      else
        let cur2 := spliceIn (spliceOut cur (cur.indexOf n)) desired n
        let ref := (cur2[desired + 1]?).getD anchor
        let upd2 := if ref ∈ dom then upd ++ [Mut.insertBefore n ref] else upd
        posLoop anchor dom index rest (nodeIndex + 1) cur2 upd2
    else
      let ref := (cur[desired]?).getD anchor
      let cur2 := spliceIn cur desired n
      let upd2 := if ref ∈ dom then upd ++ [Mut.insertBefore n ref] else upd
      posLoop anchor dom index rest (nodeIndex + 1) cur2 upd2

/-- Mutable state threaded through the `processedItems.forEach` loop: the
renderer state (for `renderWithCache` calls), the keyed cache, the simulated
sibling list `currentNodes`, the scheduled `updates`, and the cleanup
handlers that were invoked synchronously during the pass. -/
structure LoopSt where
  rst : RState
  imap : List (Nat × Entry)
  cur : List Nat
  updates : List Mut
  cleanupsRun : List BindingE

/-- The `processedItems.forEach` loop (index.ts lines 188-241), with the
running item index: look up the cached entry; when the entry is missing or
the item is not `itemsEqual` to the cached one, run the old entry's cleanup,
drop its nodes from the simulated list, materialize the new instructions and
overwrite the map entry; then run the position loop over the (new or kept)
entry's nodes. -/
def procLoop (cfg : ForCfg) (dom : List Nat) :
    List (Nat × Item × List Instr) → Nat → LoopSt → LoopSt
  | [], _, st => st
  | (k, item, instrs) :: rest, index, st =>
    match mapGet st.imap k with
    | some e =>
      if itemsEqual e.item item then
        let p := posLoop cfg.anchor dom index e.nodes 0 st.cur st.updates
        procLoop cfg dom rest (index + 1)
          { st with cur := p.1, updates := p.2 }
      else
        let cur0 := e.nodes.foldl (fun c n => c.erase n) st.cur
        let r := renderMany st.rst instrs
        let p := posLoop cfg.anchor dom index r.2.1 0 cur0 st.updates
        ⟨r.1, mapSet st.imap k ⟨r.2.1, r.2.2, item, instrs⟩, p.1, p.2,
          st.cleanupsRun ++ e.cleanup⟩ |> procLoop cfg dom rest (index + 1)
    | none =>
      let r := renderMany st.rst instrs
      let p := posLoop cfg.anchor dom index r.2.1 0 st.cur st.updates
      ⟨r.1, mapSet st.imap k ⟨r.2.1, r.2.2, item, instrs⟩, p.1, p.2,
        st.cleanupsRun⟩ |> procLoop cfg dom rest (index + 1)

/-- The `for (const [key, entry] of itemMap)` removal loop (index.ts lines
244-257): every entry whose key is not in the new key set has its cleanup
run, each of its nodes pushed as a removal closure, and is deleted from the
map.  Returns (surviving map, removal node list, cleanup handlers run). -/
def removalLoop (newKeys : List Nat) :
    List (Nat × Entry) → List (Nat × Entry) × List Nat × List BindingE
  | [] => ([], [], [])
  | (k, e) :: rest =>
    let r := removalLoop newKeys rest
    if k ∈ newKeys then ((k, e) :: r.1, r.2.1, r.2.2)
    else (r.1, e.nodes ++ r.2.1, e.cleanup ++ r.2.2)

/-- The outputs of one run of the for-binding's effect. -/
structure StepOut where
  rst : RState
  imap : List (Nat × Entry)
  cleanupsRun : List BindingE
  removals : List Nat
  updates : List Mut

/-- One run of the effect registered by `DOMRenderer.renderForBinding`
(index.ts lines 170-264): read the items, snapshot the parent's children
minus the anchor as `currentNodes`, build the `(key, item, instructions)`
triples (an item whose template is empty occupies no slot), run the per-item
loop, then the removal loop over the keyed cache; the removals and updates
form the single scheduled closure (line 260). -/
def forStep (cfg : ForCfg) (rst : RState) (imap : List (Nat × Entry))
    (dom : List Nat) (items : List Item) : StepOut :=
  let cur0 := dom.filter (fun n => n ≠ cfg.anchor)
  let processed := items.flatMap (fun it =>
    if (cfg.template it).length = 0 then []
    else [(cfg.trackBy it, it, cfg.template it)])
  let newKeys := processed.map (·.1)
  let st := procLoop cfg dom processed 0 ⟨rst, imap, cur0, [], []⟩
  let r := removalLoop newKeys st.imap
  ⟨st.rst, r.1, st.cleanupsRun ++ r.2.2, r.2.1, st.updates⟩

/-- One removal closure at flush time (index.ts lines 249-253):
`if (node.parentNode) { node.parentNode.removeChild(node) }` — guarded, so it
never throws. -/
def applyRemoval (dom : List Nat) (n : Nat) : List Nat :=
  if n ∈ dom then dom.erase n else dom

/-- The update closures at flush time (index.ts lines 228 and 237):
`referenceNode.parentNode!.insertBefore(node, referenceNode)` re-reads the
reference node's parent; when the reference node has been detached in the
meantime this throws a `TypeError`, which aborts the remaining updates of the
same scheduled closure (they are all inside one `try`/`catch` of the
scheduler's flush).  `insertBefore` moves the node: it is detached from its
current position and inserted immediately before the reference node. -/
def applyUpdates : List Nat → List Mut → List Nat
  | dom, [] => dom
  | dom, Mut.insertBefore n ref :: rest =>
    if ref ∈ dom then
      let d1 := dom.erase n
      applyUpdates (spliceIn d1 (d1.indexOf ref) n) rest
    else dom

/-- The single scheduled closure of one for-binding pass (index.ts lines
260-263): all removals, then all updates. -/
def applyScheduled (out : StepOut) (dom : List Nat) : List Nat :=
  applyUpdates (out.removals.foldl applyRemoval dom) out.updates

/-- A track function reading the item's `id` field, as in the demo
application (`task => task.id`, main.ts line 119). -/
def demoTrackBy : Item → Nat :=
  fun it => (jsGet it "id").getD 0

/-- An item template returning one fresh static instruction per distinct item
(each call of a real template constructs new instruction objects; here the
instruction identity is derived from the item's reference identity). -/
def demoTemplate : Item → List Instr :=
  fun it => [Instr.static it.ref (200 + it.ref)]

/-- A for-binding configuration with anchor comment node 99. -/
def demoCfg : ForCfg :=
  ⟨demoTrackBy, demoTemplate, 99⟩

/-- `{id: 10, v: 20}` — object reference 1. -/
def itemA : Item := ⟨1, true, false, [("id", some 10), ("v", some 20)]⟩

/-- `{id: 10, v: 21}` — object reference 2: same track key as `itemA`, one
changed field. -/
def itemA2 : Item := ⟨2, true, false, [("id", some 10), ("v", some 21)]⟩

/-- `{id: 1}` — object reference 1. -/
def itemP : Item := ⟨1, true, false, [("id", some 1)]⟩

/-- `{id: 2}` — object reference 2. -/
def itemQ : Item := ⟨2, true, false, [("id", some 2)]⟩

/-- C4 scenario, first run: items `[itemA]` against an empty cache; the
parent holds only the anchor. -/
def c4Run1 : StepOut := forStep demoCfg ⟨[], 0⟩ [] [99] [itemA]

/-- C4 scenario: the document after flushing the first run. -/
def c4Dom1 : List Nat := applyScheduled c4Run1 [99]

/-- C4 scenario, second run: the item changed to `itemA2` (same key 10). -/
def c4Run2 : StepOut := forStep demoCfg c4Run1.rst c4Run1.imap c4Dom1 [itemA2]

/-- C4 scenario: the document after flushing the second run. -/
def c4Dom2 : List Nat := applyScheduled c4Run2 c4Dom1

/-- C5 scenario, first run: items `[itemP, itemQ]` against an empty cache. -/
def c5Run1 : StepOut := forStep demoCfg ⟨[], 0⟩ [] [99] [itemP, itemQ]

/-- C5 scenario: the document after flushing the first run. -/
def c5Dom1 : List Nat := applyScheduled c5Run1 [99]

/-- C5 scenario, second run: the same two items, reordered — no key absent,
no item changed. -/
def c5Run2 : StepOut := forStep demoCfg c5Run1.rst c5Run1.imap c5Dom1 [itemQ, itemP]

/-- C5 scenario: the document after flushing the second run. -/
def c5Dom2 : List Nat := applyScheduled c5Run2 c5Dom1

/-- The world of the C2 scenario: the batch scheduler, the watcher's set of
registered computations (effect.ts line 318 `w.watch(computed)`), and the
text node produced for the mounted instruction's text binding, with its text
content and whether it is attached to the container. -/
structure C2World where
  sched : Sched
  watched : List Nat
  nodeText : String
  nodeAttached : Bool
deriving Repr

/-- C2 scenario, step 1 — `mount` of a dynamic instruction with one text
binding: `createTextBinding` (index.ts lines 103-110) registers an effect
(computation 100) with the watcher; the effect's synchronous first run reads
the cell and calls `scheduleUpdate`, which queues the DOM write (update 0) in
the batch scheduler; the node is appended to the container.  The write itself
has not run: it sits in the pending set. -/
def c2Mount : C2World :=
  ⟨schedule initSched 0, [100], "", true⟩

/-- C2 scenario, step 2 — the disposer returned by `mount` (index.ts lines
23-31) runs before the microtask flush: each cleanup is the effect's disposer
(effect.ts lines 321-325), which unwatches computation 100; the node is
detached; the render cache is reset.  Nothing touches the batch scheduler:
its pending set still holds update 0. -/
def c2Dispose (w : C2World) : C2World :=
  { w with watched := [], nodeAttached := false }

/-- C2 scenario, step 3 — the queued microtask runs `flush` (batch.ts lines
25-48).  If update 0 is among the executed callbacks, the closure
`() => { binding.node.textContent = String(value) }` writes the text through
the node reference it captured, attached or not. -/
def c2Flush (w : C2World) : C2World :=
  let r := flush (fun _ => ([], false)) w.sched
  { w with
    sched := r.1
    nodeText := if 0 ∈ r.2.1 then "hello" else w.nodeText }

theorem schedule_pending (s : Sched) (f : Nat) :
    (schedule s f).pending =
      if f ∈ s.pending then s.pending else s.pending ++ [f] := by
  unfold schedule
  by_cases h : f ∈ s.pending <;> simp [h] <;> split <;> rfl

theorem schedule_isScheduled_mono (s : Sched) (f : Nat)
    (h : s.isScheduled = true) : (schedule s f).isScheduled = true := by
  unfold schedule
  by_cases hm : f ∈ s.pending <;> simp [hm, h]

theorem scheduleMany_pending (fs : List Nat) (s : Sched) :
    (scheduleMany s fs).pending =
      s.pending ++ firstOccs (fs.filter (· ∉ s.pending)) := by
  induction fs generalizing s with
  | nil => simp [scheduleMany, firstOccs]
  | cons f fs ih =>
    simp only [scheduleMany, List.foldl_cons] at *
    by_cases hm : f ∈ s.pending
    · have hp : (schedule s f).pending = s.pending := by
        rw [schedule_pending]; simp [hm]
      have := ih (schedule s f)
      rw [hp] at this
      rw [this]
      congr 2
      rw [List.filter_cons]
      simp [hm]
    · have hp : (schedule s f).pending = s.pending ++ [f] := by
        rw [schedule_pending]; simp [hm]
      have := ih (schedule s f)
      rw [hp] at this
      rw [this]
      have hfilter :
          fs.filter (· ∉ s.pending ++ [f]) =
            (fs.filter (· ∉ s.pending)).filter (· ≠ f) := by
        rw [List.filter_filter]
        apply List.filter_congr
        intro x _
        by_cases hx : x = f <;> by_cases hsx : x ∈ s.pending <;>
          simp [hx, hsx]
      rw [hfilter]
      have : firstOccs ((f :: fs).filter (· ∉ s.pending)) =
          f :: firstOccs ((fs.filter (· ∉ s.pending)).filter (· ≠ f)) := by
        simp only [List.filter_cons]
        have : (decide (f ∉ s.pending)) = true := by simpa using hm
        rw [this]
        simp [firstOccs]
      rw [this]
      simp

theorem firstOccs_subset (l : List Nat) : firstOccs l ⊆ l := by
  induction l using firstOccs.induct with
  | case1 => simp [firstOccs]
  | case2 f fs ih =>
    rw [firstOccs]
    intro x hx
    rcases List.mem_cons.mp hx with h | h
    · exact h ▸ List.mem_cons_self f fs
    · exact List.mem_cons_of_mem f (List.mem_of_mem_filter (ih h))

theorem firstOccs_nodup (l : List Nat) : (firstOccs l).Nodup := by
  induction l using firstOccs.induct with
  | case1 => simp [firstOccs]
  | case2 f fs ih =>
    rw [firstOccs]
    refine List.nodup_cons.mpr ⟨?_, ih⟩
    intro hmem
    have hx := firstOccs_subset _ hmem
    have := List.of_mem_filter hx
    simp at this

theorem firstOccs_mem_iff (l : List Nat) (x : Nat) :
    x ∈ firstOccs l ↔ x ∈ l := by
  induction l using firstOccs.induct with
  | case1 => simp [firstOccs]
  | case2 f fs ih =>
    rw [firstOccs]
    by_cases hx : x = f
    · subst hx; simp
    · simp only [List.mem_cons, hx, false_or]
      rw [ih]
      simp [List.mem_filter, hx]

theorem schedule_isFlushing (s : Sched) (f : Nat) :
    (schedule s f).isFlushing = s.isFlushing := by
  unfold schedule
  by_cases hm : f ∈ s.pending <;> simp [hm] <;> split <;> rfl

theorem schedule_isScheduled_of_not_flushing (s : Sched) (f : Nat)
    (h : s.isFlushing = false) : (schedule s f).isScheduled = true := by
  unfold schedule
  by_cases hm : f ∈ s.pending <;> by_cases hs : s.isScheduled <;> simp [hm, hs, h]

theorem foldl_schedule_isFlushing (fs : List Nat) (s : Sched) :
    (fs.foldl schedule s).isFlushing = s.isFlushing := by
  induction fs generalizing s with
  | nil => rfl
  | cons f fs ih => rw [List.foldl_cons, ih, schedule_isFlushing]

theorem runUpdates_executed (beh : Nat → List Nat × Bool) (fs : List Nat)
    (s : Sched) : (runUpdates beh fs s).2.1 = fs := by
  induction fs generalizing s with
  | nil => rfl
  | cons f fs ih => simp [runUpdates, ih]

theorem runUpdates_errors (beh : Nat → List Nat × Bool) (fs : List Nat)
    (s : Sched) :
    (runUpdates beh fs s).2.2 = fs.filter (fun g => (beh g).2) := by
  induction fs generalizing s with
  | nil => rfl
  | cons f fs ih =>
    simp only [runUpdates, List.filter_cons]
    by_cases hb : (beh f).2 <;> simp [hb, ih]

theorem foldl_schedule_isScheduled_mono (fs : List Nat) (s : Sched)
    (h : s.isScheduled = true) : (fs.foldl schedule s).isScheduled = true := by
  induction fs generalizing s with
  | nil => exact h
  | cons f fs ih => exact ih _ (schedule_isScheduled_mono _ _ h)

theorem flush_of_isFlushing (beh : Nat → List Nat × Bool) (s : Sched)
    (h : s.isFlushing = true) : flush beh s = (s, [], []) := by
  unfold flush
  simp [h]

theorem flush_of_empty (beh : Nat → List Nat × Bool) (s : Sched)
    (h : s.pending = []) : flush beh s = (s, [], []) := by
  unfold flush
  simp [h]

theorem flush_eq_of_active (beh : Nat → List Nat × Bool) (s : Sched)
    (h : s.isFlushing = false) (hp : s.pending ≠ []) :
    flush beh s =
      (if (runUpdates beh s.pending ⟨[], true, false⟩).1.pending ≠ [] then
          { (runUpdates beh s.pending ⟨[], true, false⟩).1 with
              isFlushing := false, isScheduled := true }
        else
          { (runUpdates beh s.pending ⟨[], true, false⟩).1 with
              isFlushing := false },
        (runUpdates beh s.pending ⟨[], true, false⟩).2.1,
        (runUpdates beh s.pending ⟨[], true, false⟩).2.2) := by
  unfold flush
  rw [if_neg (by simp [h, hp])]

theorem flush_executed (beh : Nat → List Nat × Bool) (s : Sched)
    (h : s.isFlushing = false) : (flush beh s).2.1 = s.pending := by
  by_cases hp : s.pending = []
  · rw [flush_of_empty beh s hp, hp]
  · rw [flush_eq_of_active beh s h hp]
    split <;> simp [runUpdates_executed]

theorem flush_errors (beh : Nat → List Nat × Bool) (s : Sched)
    (h : s.isFlushing = false) :
    (flush beh s).2.2 = s.pending.filter (fun g => (beh g).2) := by
  by_cases hp : s.pending = []
  · rw [flush_of_empty beh s hp, hp]
    rfl
  · rw [flush_eq_of_active beh s h hp]
    split <;> simp [runUpdates_errors]

theorem flush_isFlushing (beh : Nat → List Nat × Bool) (s : Sched)
    (h : s.isFlushing = false) : (flush beh s).1.isFlushing = false := by
  by_cases hp : s.pending = []
  · rw [flush_of_empty beh s hp]
    exact h
  · rw [flush_eq_of_active beh s h hp]
    split <;> rfl

theorem flush_reschedules (beh : Nat → List Nat × Bool) (s : Sched)
    (h : s.isFlushing = false) (hp : (flush beh s).1.pending ≠ []) :
    (flush beh s).1.isScheduled = true := by
  by_cases hpe : s.pending = []
  · rw [flush_of_empty beh s hpe] at hp
    exact absurd hpe hp
  · rw [flush_eq_of_active beh s h hpe] at hp ⊢
    rcases hq : (runUpdates beh s.pending ⟨[], true, false⟩).1.pending with _ | _
    · rw [if_neg (by simp [hq])] at hp
      simp [hq] at hp
    · rw [if_pos (by simp [hq])]

/-- C6: for every callback reference `f` and every sequence of `schedule(f)`
calls made before a flush (starting from the fresh scheduler), `f` is in the
pending set at most once (exactly once when it was scheduled), a later
`schedule(f)` is a complete no-op on the scheduler state, and the flush runs
`f` exactly once, at the position of its first scheduling (the first-occurrence
order of the scheduled callbacks). -/
theorem c6_schedule_dedup_runs_once (beh : Nat → List Nat × Bool)
    (fs : List Nat) (f : Nat) (hf : f ∈ fs) :
    (scheduleMany initSched fs).pending.count f = 1 ∧
    schedule (scheduleMany initSched fs) f = scheduleMany initSched fs ∧
    ((flush beh (scheduleMany initSched fs)).2.1).count f = 1 ∧
    ((flush beh (scheduleMany initSched fs)).2.1).indexOf f =
      (firstOccs fs).indexOf f := by
  have hpend : (scheduleMany initSched fs).pending = firstOccs fs := by
    rw [scheduleMany_pending]
    simp [initSched]
  have hflush0 : (scheduleMany initSched fs).isFlushing = false := by
    unfold scheduleMany
    rw [foldl_schedule_isFlushing]
    rfl
  have hcount : (firstOccs fs).count f = 1 :=
    List.count_eq_one_of_mem (firstOccs_nodup fs)
      ((firstOccs_mem_iff fs f).mpr hf)
  have hsched : (scheduleMany initSched fs).isScheduled = true := by
    obtain ⟨g, gs, rfl⟩ := List.exists_cons_of_ne_nil
      (List.ne_nil_of_mem hf)
    unfold scheduleMany
    rw [List.foldl_cons]
    exact foldl_schedule_isScheduled_mono gs _
      (schedule_isScheduled_of_not_flushing _ _ rfl)
  refine ⟨by rw [hpend]; exact hcount, ?_, ?_, ?_⟩
  · unfold schedule
    have hm : f ∈ (scheduleMany initSched fs).pending := by
      rw [hpend]; exact (firstOccs_mem_iff fs f).mpr hf
    simp [hm, hsched]
  · rw [flush_executed beh _ hflush0, hpend]; exact hcount
  · rw [flush_executed beh _ hflush0, hpend]

/-- C6 witness: scheduling callback 5 twice (around a schedule of 7) leaves it
pending once and a flush runs it exactly once, first. -/
theorem c6_schedule_dedup_runs_once_witness :
    5 ∈ [5, 7, 5] ∧
    ((scheduleMany initSched [5, 7, 5]).pending.count 5 = 1 ∧
      schedule (scheduleMany initSched [5, 7, 5]) 5 =
        scheduleMany initSched [5, 7, 5] ∧
      ((flush (fun _ => ([], false)) (scheduleMany initSched [5, 7, 5])).2.1).count 5 = 1 ∧
      ((flush (fun _ => ([], false)) (scheduleMany initSched [5, 7, 5])).2.1).indexOf 5 =
        (firstOccs [5, 7, 5]).indexOf 5) :=
  ⟨by decide,
    c6_schedule_dedup_runs_once (fun _ => ([], false)) [5, 7, 5] 5 (by decide)⟩

/-- C7: a flush pass processes exactly the snapshot of the pending set taken
at its start; a nested `flush` call while one is in progress returns
immediately having run nothing; and work scheduled during the pass is not run
in it but is left pending with another pass arranged, and the next pass runs
exactly that deferred work. -/
theorem c7_flush_snapshot_no_reentry (beh : Nat → List Nat × Bool)
    (s : Sched) :
    (s.isFlushing = true → flush beh s = (s, [], [])) ∧
    (s.isFlushing = false →
      (flush beh s).2.1 = s.pending ∧
      (flush beh s).1.isFlushing = false ∧
      ((flush beh s).1.pending ≠ [] → (flush beh s).1.isScheduled = true) ∧
      (flush beh (flush beh s).1).2.1 = (flush beh s).1.pending) := by
  refine ⟨fun h => flush_of_isFlushing beh s h, fun h => ?_⟩
  exact ⟨flush_executed beh s h, flush_isFlushing beh s h,
    flush_reschedules beh s h,
    flush_executed beh _ (flush_isFlushing beh s h)⟩

/-- C7 witness: a pass over pending callbacks 1 and 2, where running 2
schedules 3: the pass runs exactly [1, 2], leaves 3 deferred with another
pass arranged, and that next pass runs exactly [3]; a nested call in the
flushing state is a no-op. -/
theorem c7_flush_snapshot_no_reentry_witness :
    (Sched.mk [9] true false).isFlushing = true ∧
    flush (fun g => if g = 2 then ([3], false) else ([], false))
        ⟨[9], true, false⟩ = (⟨[9], true, false⟩, [], []) ∧
    (Sched.mk [1, 2] false true).isFlushing = false ∧
    ((flush (fun g => if g = 2 then ([3], false) else ([], false))
        ⟨[1, 2], false, true⟩).2.1 = [1, 2] ∧
      (flush (fun g => if g = 2 then ([3], false) else ([], false))
        ⟨[1, 2], false, true⟩).1.pending = [3] ∧
      (flush (fun g => if g = 2 then ([3], false) else ([], false))
        ⟨[1, 2], false, true⟩).1.isScheduled = true ∧
      (flush (fun g => if g = 2 then ([3], false) else ([], false))
        (flush (fun g => if g = 2 then ([3], false) else ([], false))
          ⟨[1, 2], false, true⟩).1).2.1 = [3]) := by
  have h := c7_flush_snapshot_no_reentry
    (fun g => if g = 2 then ([3], false) else ([], false)) ⟨[1, 2], false, true⟩
  have h9 := c7_flush_snapshot_no_reentry
    (fun g => if g = 2 then ([3], false) else ([], false)) ⟨[9], true, false⟩
  have hpend : (flush (fun g => if g = 2 then ([3], false) else ([], false))
      ⟨[1, 2], false, true⟩).1.pending = [3] := by decide
  refine ⟨rfl, h9.1 rfl, rfl, (h.2 rfl).1, hpend, ?_, ?_⟩
  · exact (h.2 rfl).2.2.1 (by rw [hpend]; decide)
  · rw [(h.2 rfl).2.2.2, hpend]

/-- C8: within one flush pass, a callback that throws is caught and reported,
and every callback in the snapshot — in particular every one queued after the
thrower — still runs: the executed list is the entire snapshot and the thrower
appears in the reported-error list. -/
theorem c8_flush_catches_and_continues (beh : Nat → List Nat × Bool)
    (s : Sched) (h : s.isFlushing = false) (f : Nat)
    (hthrows : (beh f).2 = true) (hmem : f ∈ s.pending) :
    (flush beh s).2.1 = s.pending ∧ f ∈ (flush beh s).2.2 := by
  refine ⟨flush_executed beh s h, ?_⟩
  rw [flush_errors beh s h]
  exact List.mem_filter.mpr ⟨hmem, by simp [hthrows]⟩

/-- C8 witness: with pending [1, 2, 3] and callback 2 throwing, the flush
still runs all of [1, 2, 3] and reports 2. -/
theorem c8_flush_catches_and_continues_witness :
    (Sched.mk [1, 2, 3] false true).isFlushing = false ∧
    ((fun g => (([] : List Nat), g = 2)) 2).2 = true ∧
    2 ∈ [1, 2, 3] ∧
    ((flush (fun g => (([] : List Nat), g = 2)) ⟨[1, 2, 3], false, true⟩).2.1 =
        [1, 2, 3] ∧
      2 ∈ (flush (fun g => (([] : List Nat), g = 2))
        ⟨[1, 2, 3], false, true⟩).2.2) :=
  ⟨rfl, by decide, by decide,
    c8_flush_catches_and_continues (fun g => (([] : List Nat), g = 2))
      ⟨[1, 2, 3], false, true⟩ rfl 2 (by decide) (by decide)⟩

theorem find?_overwrite_self (c : List (Nat × (List Nat × List BindingE)))
    (k : Nat) (v : List Nat × List BindingE)
    (h : c.any (fun kv => kv.1 == k) = true) :
    (c.map (fun kv => if kv.1 == k then (k, v) else kv)).find?
      (fun kv => kv.1 == k) = some (k, v) := by
  induction c with
  | nil => simp at h
  | cons kv rest ih =>
    by_cases hk : (kv.1 == k) = true
    · simp only [List.map_cons, if_pos hk]
      rw [List.find?_cons_of_pos _ (by simp)]
    · simp only [List.map_cons, if_neg hk]
      rw [@List.find?_cons_of_neg _ (fun kv => kv.1 == k) kv _ hk]
      apply ih
      simp only [List.any_cons, hk, Bool.false_or] at h
      exact h

theorem find?_overwrite_ne (c : List (Nat × (List Nat × List BindingE)))
    (k k' : Nat) (v : List Nat × List BindingE) (hne : k' ≠ k) :
    (c.map (fun kv => if kv.1 == k then (k, v) else kv)).find?
      (fun kv => kv.1 == k') = c.find? (fun kv => kv.1 == k') := by
  induction c with
  | nil => rfl
  | cons kv rest ih =>
    by_cases hk : (kv.1 == k) = true
    · simp only [List.map_cons, if_pos hk]
      have hkv : ¬(kv.1 == k') = true := by
        have he : kv.1 = k := by simpa using hk
        simp [he, Ne.symm hne]
      rw [@List.find?_cons_of_neg _ (fun kv => kv.1 == k') (k, v) _
          (by simp [Ne.symm hne]),
        @List.find?_cons_of_neg _ (fun kv => kv.1 == k') kv _ hkv]
      exact ih
    · simp only [List.map_cons, if_neg hk]
      by_cases hk' : (kv.1 == k') = true
      · rw [@List.find?_cons_of_pos _ (fun kv => kv.1 == k') kv _ hk',
          @List.find?_cons_of_pos _ (fun kv => kv.1 == k') kv _ hk']
      · rw [@List.find?_cons_of_neg _ (fun kv => kv.1 == k') kv _ hk',
          @List.find?_cons_of_neg _ (fun kv => kv.1 == k') kv _ hk']
        exact ih

theorem cacheGet_cacheSet_self (c : List (Nat × (List Nat × List BindingE)))
    (k : Nat) (v : List Nat × List BindingE) :
    cacheGet (cacheSet c k v) k = some v := by
  unfold cacheSet
  by_cases h : c.any (fun kv => kv.1 == k)
  · rw [if_pos h]
    unfold cacheGet
    rw [find?_overwrite_self c k v h]
    rfl
  · rw [if_neg h]
    unfold cacheGet
    have hnone : c.find? (fun kv => kv.1 == k) = none := by
      rw [List.find?_eq_none]
      intro x hx hxk
      exact h (List.any_eq_true.mpr ⟨x, hx, hxk⟩)
    rw [List.find?_append, hnone]
    simp

theorem cacheGet_cacheSet_ne (c : List (Nat × (List Nat × List BindingE)))
    (k k' : Nat) (v : List Nat × List BindingE) (hne : k' ≠ k) :
    cacheGet (cacheSet c k v) k' = cacheGet c k' := by
  unfold cacheSet
  by_cases h : c.any (fun kv => kv.1 == k)
  · rw [if_pos h]
    unfold cacheGet
    rw [find?_overwrite_ne c k k' v hne]
  · rw [if_neg h]
    unfold cacheGet
    rw [List.find?_append]
    have : List.find? (fun kv => kv.1 == k') [(k, v)] = none := by
      simp [Ne.symm hne]
    rw [this]
    simp

theorem renderWithCache_of_cached (st : RState) (inst : Instr)
    (c : List Nat × List BindingE) (h : cacheGet st.cache inst.iid = some c) :
    renderWithCache st inst = (st, c) := by
  cases inst with
  | static iid el =>
    simp only [Instr.iid] at h
    simp only [renderWithCache, h]
  | dynamic iid target tIsEl bindings children =>
    simp only [Instr.iid] at h
    simp only [renderWithCache, h]

theorem renderWithCache_static_uncached (st : RState) (iid el : Nat)
    (h : cacheGet st.cache iid = none) :
    renderWithCache st (.static iid el) =
      (⟨cacheSet st.cache iid ([st.nextNode], []), st.nextNode + 1⟩,
        [st.nextNode], []) := by
  simp only [renderWithCache, h]

theorem renderWithCache_dynamic_uncached (st : RState) (iid target : Nat)
    (tIsEl : Bool) (bindings : List BindingE) (children : List Instr)
    (h : cacheGet st.cache iid = none) :
    renderWithCache st (.dynamic iid target tIsEl bindings children) =
      (⟨cacheSet (renderDynamic st target tIsEl bindings children).1.cache iid
          (renderDynamic st target tIsEl bindings children).2,
        (renderDynamic st target tIsEl bindings children).1.nextNode⟩,
        (renderDynamic st target tIsEl bindings children).2) := by
  simp only [renderWithCache, renderDynamic, h]

/-- C9: materialization is memoized by instruction identity — rendering the
same instruction again returns the previously produced nodes and cleanup list
and leaves the renderer state unchanged (a materialized-output cache entry is
created at most once between mount and dispose; re-render requests never
rebuild). -/
theorem c9_render_cache_memoized (st : RState) (inst : Instr) :
    renderWithCache (renderWithCache st inst).1 inst = renderWithCache st inst := by
  rcases h : cacheGet st.cache inst.iid with _ | c
  · cases inst with
    | static iid el =>
      have h0 : cacheGet st.cache iid = none := h
      rw [renderWithCache_static_uncached st iid el h0]
      have hc : cacheGet (cacheSet st.cache iid ([st.nextNode], []))
          (Instr.static iid el).iid = some ([st.nextNode], []) :=
        cacheGet_cacheSet_self st.cache iid ([st.nextNode], [])
      exact renderWithCache_of_cached _ _ _ hc
    | dynamic iid target tIsEl bindings children =>
      have h0 : cacheGet st.cache iid = none := h
      rw [renderWithCache_dynamic_uncached st iid target tIsEl bindings children h0]
      have hc : cacheGet
          (cacheSet (renderDynamic st target tIsEl bindings children).1.cache
            iid (renderDynamic st target tIsEl bindings children).2)
          (Instr.dynamic iid target tIsEl bindings children).iid =
            some (renderDynamic st target tIsEl bindings children).2 :=
        cacheGet_cacheSet_self _ iid _
      exact renderWithCache_of_cached _ _ _ hc
  · rw [renderWithCache_of_cached st inst c h]
    exact renderWithCache_of_cached st inst c h

/-- C10: when a dynamic instruction's bindings contain a `for` binding,
`renderDynamic` returns only the first such binding's anchor as its node list
and its single effect as the only handler: no other declared binding gets a
handler, the target node is not returned, and the renderer state is untouched
— in particular none of the instruction's children is materialized (the
result does not depend on `children` at all). -/
theorem c10_for_binding_short_circuits (st : RState) (target : Nat)
    (tIsEl : Bool) (l1 l2 : List BindingE) (items parent anchor : Nat)
    (children : List Instr)
    (h1 : ∀ b ∈ l1, b.isFor = false) (h2 : target ≠ anchor) :
    renderDynamic st target tIsEl
        (l1 ++ BindingE.forB items parent anchor :: l2) children =
      (st, [anchor], [BindingE.forB items parent anchor]) ∧
    target ∉ (renderDynamic st target tIsEl
        (l1 ++ BindingE.forB items parent anchor :: l2) children).2.1 := by
  have hl1 : l1.find? BindingE.isFor = none := by
    rw [List.find?_eq_none]
    intro x hx
    simp [h1 x hx]
  have hfind : (l1 ++ BindingE.forB items parent anchor :: l2).find?
      BindingE.isFor = some (BindingE.forB items parent anchor) := by
    rw [List.find?_append, hl1,
      List.find?_cons_of_pos _ (by rfl :
        BindingE.isFor (BindingE.forB items parent anchor) = true)]
    rfl
  refine ⟨?_, ?_⟩
  · simp only [renderDynamic, hfind, forAnchor]
  · simp only [renderDynamic, hfind, forAnchor]
    simp [h2]

/-- C10 witness: a dynamic instruction with a text binding, a for binding,
a class binding and a static child renders to just the for binding's anchor
and its one effect. -/
theorem c10_for_binding_short_circuits_witness :
    (∀ b ∈ [BindingE.text 1 2], b.isFor = false) ∧ (50 : Nat) ≠ 51 ∧
    (renderDynamic ⟨[], 0⟩ 50 true
        ([BindingE.text 1 2] ++ BindingE.forB 3 50 51 :: [BindingE.cls "a" 4 50])
        [.static 9 100] =
      (⟨[], 0⟩, [51], [BindingE.forB 3 50 51]) ∧
    50 ∉ (renderDynamic ⟨[], 0⟩ 50 true
        ([BindingE.text 1 2] ++ BindingE.forB 3 50 51 :: [BindingE.cls "a" 4 50])
        [.static 9 100]).2.1) :=
  ⟨by decide, by decide,
    c10_for_binding_short_circuits ⟨[], 0⟩ 50 true [BindingE.text 1 2]
      [BindingE.cls "a" 4 50] 3 50 51 [.static 9 100] (by decide) (by decide)⟩

/-- C1: the `if` binding is never wired to anything.  `createBinding` has no
case for `'if'` and returns `undefined`, and rendering the exact instruction
`DOMBuilder.if` produces yields the bare wrapper div with an empty handler
list — no effect ever reads the condition cell, so a change of the condition
tears down nothing, materializes nothing and inserts nothing: toggling
true→false→true produces zero teardown/rebuild cycles, not two. -/
theorem c1_if_binding_never_wired :
    createBinding (BindingE.ifB 7 50 51) = none ∧
    renderWithCache ⟨[], 0⟩ ifInstr =
      (⟨[(5, ([50], []))], 0⟩, [50], []) := by
  refine ⟨rfl, ?_⟩
  have hrd : renderDynamic ⟨[], 0⟩ 50 true [BindingE.ifB 7 50 51] [] =
      (⟨[], 0⟩, [50], []) := by
    simp only [renderDynamic]
    rfl
  unfold ifInstr
  rw [renderWithCache_dynamic_uncached ⟨[], 0⟩ 5 50 true
    [BindingE.ifB 7 50 51] [] rfl, hrd]
  rfl

/-- C3 counterexample: mounting the same static instruction object twice
through the same renderer does not clone twice.  The second mount returns the
very same cached node (identity 0) as the first, so the two mounts share one
node: a text mutation performed through the first mount's handle is observed
through the second mount's handle — the nodes are not independent. -/
theorem c3_counterexample_shared_clone :
    (mount (mount ⟨[], 0⟩ staticInstr []).1 staticInstr []).2.2.1 =
      (mount ⟨[], 0⟩ staticInstr []).2.2.1 ∧
    (mount ⟨[], 0⟩ staticInstr []).2.2.1 = [0] ∧
    setText (fun _ => "")
        ((mount ⟨[], 0⟩ staticInstr []).2.2.1.headI) "edited"
        ((mount (mount ⟨[], 0⟩ staticInstr []).1 staticInstr []).2.2.1.headI) =
      "edited" := by
  have h1 : renderWithCache (⟨[], 0⟩ : RState) staticInstr =
      (⟨[(7, ([0], []))], 1⟩, [0], []) := by
    unfold staticInstr
    rw [renderWithCache_static_uncached ⟨[], 0⟩ 7 500 rfl]
    rfl
  have h2 : renderWithCache (⟨[(7, ([0], []))], 1⟩ : RState) staticInstr =
      (⟨[(7, ([0], []))], 1⟩, [0], []) := by
    unfold staticInstr
    exact renderWithCache_of_cached _ _ ([0], []) rfl
  simp only [mount, h1, h2]
  simp [setText]

/-- C3 amended: the FIRST materialization of a static instruction clones the
wrapped subtree — it allocates a node the document has never seen, distinct
from the wrapped element — so two DISTINCT static instruction objects (or
mounts separated by a dispose, which empties the cache) yield independent
nodes; but a repeated mount of the same instruction object through the same
renderer returns the cached clone instead of a fresh one. -/
theorem c3_static_first_materialization_clones (st : RState)
    (i1 i2 e1 e2 : Nat) (h1 : cacheGet st.cache i1 = none)
    (h2 : cacheGet st.cache i2 = none) (hne : i1 ≠ i2)
    (he : e1 < st.nextNode) :
    (renderWithCache st (.static i1 e1)).2.1 = [st.nextNode] ∧
    st.nextNode ≠ e1 ∧
    (renderWithCache (renderWithCache st (.static i1 e1)).1
        (.static i2 e2)).2.1 = [st.nextNode + 1] ∧
    (renderWithCache st (.static i1 e1)).2.1 ≠
      (renderWithCache (renderWithCache st (.static i1 e1)).1
        (.static i2 e2)).2.1 := by
  rw [renderWithCache_static_uncached st i1 e1 h1]
  have h2' : cacheGet (cacheSet st.cache i1 ([st.nextNode], [])) i2 = none := by
    rw [cacheGet_cacheSet_ne st.cache i1 i2 ([st.nextNode], []) (Ne.symm hne)]
    exact h2
  rw [renderWithCache_static_uncached _ i2 e2 h2']
  refine ⟨rfl, by omega, rfl, by simp⟩

/-- C3 amended witness: with a fresh renderer whose wrapped element 0 was
allocated earlier, two distinct static instructions get the distinct fresh
clones 1 and 2. -/
theorem c3_static_first_materialization_clones_witness :
    cacheGet ([] : List (Nat × (List Nat × List BindingE))) 7 = none ∧
    cacheGet ([] : List (Nat × (List Nat × List BindingE))) 8 = none ∧
    (7 : Nat) ≠ 8 ∧ (0 : Nat) < 1 ∧
    ((renderWithCache ⟨[], 1⟩ (.static 7 0)).2.1 = [1] ∧
      (1 : Nat) ≠ 0 ∧
      (renderWithCache (renderWithCache ⟨[], 1⟩ (.static 7 0)).1
          (.static 8 0)).2.1 = [2] ∧
      (renderWithCache ⟨[], 1⟩ (.static 7 0)).2.1 ≠
        (renderWithCache (renderWithCache ⟨[], 1⟩ (.static 7 0)).1
          (.static 8 0)).2.1) :=
  ⟨rfl, rfl, by decide, by decide,
    c3_static_first_materialization_clones ⟨[], 1⟩ 7 8 0 0 rfl rfl
      (by decide) (by decide)⟩

/-- C2: evaluation of the code at the failing scenario.  After `mount`, the
initial DOM write (update 0) is pending in the batch scheduler; running the
mount's disposer unregisters the effect from the watcher and detaches the
node but leaves the scheduler's pending set untouched (the disposer, index.ts
lines 23-31, only runs cleanup functions, removes nodes and resets the render
cache); the next flush therefore still executes update 0 and writes the text
through the detached node — the scheduled mutation IS applied after dispose,
contradicting the claim that it never is. -/
theorem c2_pending_mutation_applied_after_dispose :
    c2Mount.sched.pending = [0] ∧
    (c2Dispose c2Mount).watched = [] ∧
    (c2Dispose c2Mount).nodeAttached = false ∧
    (c2Dispose c2Mount).sched.pending = [0] ∧
    (c2Flush (c2Dispose c2Mount)).nodeText = "hello" := by
  refine ⟨rfl, rfl, rfl, rfl, ?_⟩
  rfl

/-- C4: evaluation of the code at the failing input.  A one-item keyed list
`[{id: 10, v: 20}]` is rendered (node 0) and flushed; the item then changes
to `{id: 10, v: 21}` (same key, one changed field).  The re-run correctly
detects the inequality and rebuilds (fresh node 1, the cache entry for key 10
now holds [1]), but the scheduled mutations contain no removal for old node
0: after the flush the document still contains node 0 next to node 1 — the
old entry's nodes are never discarded from the document. -/
theorem c4_old_nodes_remain_after_rebuild :
    itemsEqual itemA itemA2 = false ∧
    (mapGet c4Run1.imap 10).map Entry.nodes = some [0] ∧
    c4Dom1 = [0, 99] ∧
    (mapGet c4Run2.imap 10).map Entry.nodes = some [1] ∧
    c4Run2.removals = [] ∧
    c4Dom2 = [0, 1, 99] ∧
    0 ∈ c4Dom2 := by
  refine ⟨rfl, rfl, rfl, rfl, rfl, rfl, ?_⟩
  rw [show c4Dom2 = [0, 1, 99] from rfl]
  decide

/-- C5 counterexample: a re-run whose new sequence is the same two unchanged
items reordered.  No track-key is absent (no removals, no cleanup runs, the
keyed cache is untouched), yet the surviving keys' nodes are NOT left
untouched in their prior relative order: the pass schedules a move and the
flush reorders the document from [0, 1, 99] to [1, 0, 99], refuting the
claim's clause that on every re-run every non-absent key's nodes stay
untouched in their prior relative order. -/
theorem c5_counterexample_reorder_moves_nodes :
    c5Run2.removals = [] ∧
    c5Run2.cleanupsRun = [] ∧
    c5Dom1 = [0, 1, 99] ∧
    c5Dom2 = [1, 0, 99] ∧
    c5Dom2 ≠ c5Dom1 := by
  refine ⟨rfl, rfl, rfl, rfl, ?_⟩
  rw [show c5Dom2 = [1, 0, 99] from rfl, show c5Dom1 = [0, 1, 99] from rfl]
  decide

theorem mapGet_cons_self (k : Nat) (e : Entry) (m : List (Nat × Entry)) :
    mapGet ((k, e) :: m) k = some e := by
  unfold mapGet
  rw [@List.find?_cons_of_pos _ (fun kv => kv.1 == k) (k, e) m (by simp)]
  rfl

theorem mapGet_cons_ne (k1 k : Nat) (e : Entry) (m : List (Nat × Entry))
    (h : k1 ≠ k) : mapGet ((k1, e) :: m) k = mapGet m k := by
  unfold mapGet
  rw [@List.find?_cons_of_neg _ (fun kv => kv.1 == k) (k1, e) m (by simp [h])]

theorem find?_overwriteE_ne (c : List (Nat × Entry)) (k k' : Nat) (v : Entry)
    (hne : k' ≠ k) :
    (c.map (fun kv => if kv.1 == k then (k, v) else kv)).find?
      (fun kv => kv.1 == k') = c.find? (fun kv => kv.1 == k') := by
  induction c with
  | nil => rfl
  | cons kv rest ih =>
    by_cases hk : (kv.1 == k) = true
    · simp only [List.map_cons, if_pos hk]
      have hkv : ¬(kv.1 == k') = true := by
        have he : kv.1 = k := by simpa using hk
        simp [he, Ne.symm hne]
      rw [@List.find?_cons_of_neg _ (fun kv => kv.1 == k') (k, v) _
          (by simp [Ne.symm hne]),
        @List.find?_cons_of_neg _ (fun kv => kv.1 == k') kv _ hkv]
      exact ih
    · simp only [List.map_cons, if_neg hk]
      by_cases hk' : (kv.1 == k') = true
      · rw [@List.find?_cons_of_pos _ (fun kv => kv.1 == k') kv _ hk',
          @List.find?_cons_of_pos _ (fun kv => kv.1 == k') kv _ hk']
      · rw [@List.find?_cons_of_neg _ (fun kv => kv.1 == k') kv _ hk',
          @List.find?_cons_of_neg _ (fun kv => kv.1 == k') kv _ hk']
        exact ih

theorem mapGet_mapSet_ne (m : List (Nat × Entry)) (k k' : Nat) (v : Entry)
    (hne : k' ≠ k) : mapGet (mapSet m k v) k' = mapGet m k' := by
  unfold mapSet
  by_cases h : m.any (fun kv => kv.1 == k)
  · rw [if_pos h]
    unfold mapGet
    rw [find?_overwriteE_ne m k k' v hne]
  · rw [if_neg h]
    unfold mapGet
    rw [List.find?_append]
    have : List.find? (fun kv => kv.1 == k') [(k, v)] = none := by
      simp [Ne.symm hne]
    rw [this]
    simp

theorem procLoop_imap_not_mem (cfg : ForCfg) (dom : List Nat) (k : Nat) :
    ∀ (l : List (Nat × Item × List Instr)) (i : Nat) (st : LoopSt),
      (∀ kit ∈ l, kit.1 ≠ k) →
      mapGet (procLoop cfg dom l i st).imap k = mapGet st.imap k := by
  intro l
  induction l with
  | nil => intro i st _; rfl
  | cons kit rest ih =>
    intro i st hk
    obtain ⟨k1, item, instrs⟩ := kit
    have hk1 : k1 ≠ k := hk (k1, item, instrs) (List.mem_cons_self _ _)
    have hrest : ∀ kit ∈ rest, kit.1 ≠ k :=
      fun kit hkit => hk kit (List.mem_cons_of_mem _ hkit)
    simp only [procLoop]
    rcases h2 : mapGet st.imap k1 with _ | e1
    · dsimp only
      rw [ih _ _ hrest]
      exact mapGet_mapSet_ne st.imap k1 k _ (Ne.symm hk1)
    · dsimp only
      by_cases heq : itemsEqual e1.item item = true
      · rw [if_pos heq, ih _ _ hrest]
      · rw [if_neg heq, ih _ _ hrest]
        exact mapGet_mapSet_ne st.imap k1 k _ (Ne.symm hk1)

theorem procLoop_imap_equal (cfg : ForCfg) (dom : List Nat) (k : Nat)
    (e : Entry) :
    ∀ (l : List (Nat × Item × List Instr)) (i : Nat) (st : LoopSt),
      mapGet st.imap k = some e →
      (∀ kit ∈ l, kit.1 = k → itemsEqual e.item kit.2.1 = true) →
      mapGet (procLoop cfg dom l i st).imap k = some e := by
  intro l
  induction l with
  | nil => intro i st he _; exact he
  | cons kit rest ih =>
    intro i st he hall
    obtain ⟨k1, item, instrs⟩ := kit
    have hrest : ∀ kit ∈ rest, kit.1 = k → itemsEqual e.item kit.2.1 = true :=
      fun kit hkit => hall kit (List.mem_cons_of_mem _ hkit)
    simp only [procLoop]
    by_cases hkk : k1 = k
    · subst hkk
      rw [he]
      dsimp only
      have hit : itemsEqual e.item item = true :=
        hall (k1, item, instrs) (List.mem_cons_self _ _) rfl
      rw [if_pos hit]
      exact ih _ _ he hrest
    · rcases h2 : mapGet st.imap k1 with _ | e1
      · dsimp only
        refine ih _ _ ?_ hrest
        rw [mapGet_mapSet_ne st.imap k1 k _ (Ne.symm hkk)]
        exact he
      · dsimp only
        by_cases heq : itemsEqual e1.item item = true
        · rw [if_pos heq]
          exact ih _ _ he hrest
        · rw [if_neg heq]
          refine ih _ _ ?_ hrest
          rw [mapGet_mapSet_ne st.imap k1 k _ (Ne.symm hkk)]
          exact he

theorem removalLoop_mapGet_none (nk : List Nat) (k : Nat) (hk : k ∉ nk) :
    ∀ m : List (Nat × Entry), mapGet (removalLoop nk m).1 k = none := by
  intro m
  induction m with
  | nil => rfl
  | cons kv rest ih =>
    obtain ⟨k1, e1⟩ := kv
    simp only [removalLoop]
    by_cases h1 : k1 ∈ nk
    · rw [if_pos h1]
      have hne : k1 ≠ k := fun h => hk (h ▸ h1)
      rw [mapGet_cons_ne k1 k e1 _ hne]
      exact ih
    · rw [if_neg h1]
      exact ih

theorem removalLoop_mapGet_mem (nk : List Nat) (k : Nat) (hk : k ∈ nk) :
    ∀ m : List (Nat × Entry), mapGet (removalLoop nk m).1 k = mapGet m k := by
  intro m
  induction m with
  | nil => rfl
  | cons kv rest ih =>
    obtain ⟨k1, e1⟩ := kv
    simp only [removalLoop]
    by_cases h1 : k1 ∈ nk
    · rw [if_pos h1]
      by_cases hkk : k1 = k
      · subst hkk
        rw [mapGet_cons_self, mapGet_cons_self]
      · rw [mapGet_cons_ne k1 k e1 _ hkk, mapGet_cons_ne k1 k e1 _ hkk]
        exact ih
    · rw [if_neg h1]
      have hkk : k1 ≠ k := fun h => h1 (h ▸ hk)
      rw [mapGet_cons_ne k1 k e1 _ hkk]
      exact ih

theorem removalLoop_absent (nk : List Nat) (k : Nat) (e : Entry)
    (hk : k ∉ nk) :
    ∀ m : List (Nat × Entry), mapGet m k = some e →
      (∀ c ∈ e.cleanup, c ∈ (removalLoop nk m).2.2) ∧
      (∀ n ∈ e.nodes, n ∈ (removalLoop nk m).2.1) := by
  intro m
  induction m with
  | nil => intro he; simp [mapGet] at he
  | cons kv rest ih =>
    intro he
    obtain ⟨k1, e1⟩ := kv
    simp only [removalLoop]
    by_cases hkk : k1 = k
    · subst hkk
      rw [mapGet_cons_self] at he
      injection he with he
      subst he
      rw [if_neg hk]
      exact ⟨fun c hc => List.mem_append_left _ hc,
        fun n hn => List.mem_append_left _ hn⟩
    · rw [mapGet_cons_ne k1 k e1 _ hkk] at he
      by_cases h1 : k1 ∈ nk
      · rw [if_pos h1]
        exact ih he
      · rw [if_neg h1]
        exact ⟨fun c hc => List.mem_append_right _ ((ih he).1 c hc),
          fun n hn => List.mem_append_right _ ((ih he).2 n hn)⟩

theorem processed_mem (cfg : ForCfg) (items : List Item)
    (x : Nat × Item × List Instr) :
    x ∈ items.flatMap (fun it =>
        if (cfg.template it).length = 0 then []
        else [(cfg.trackBy it, it, cfg.template it)]) ↔
      ∃ it ∈ items, (cfg.template it).length ≠ 0 ∧
        x = (cfg.trackBy it, it, cfg.template it) := by
  rw [List.mem_flatMap]
  constructor
  · rintro ⟨it, hit, hx⟩
    by_cases hc : (cfg.template it).length = 0
    · rw [if_pos hc] at hx
      simp at hx
    · rw [if_neg hc] at hx
      simp only [List.mem_singleton] at hx
      exact ⟨it, hit, hc, hx⟩
  · rintro ⟨it, hit, hc, rfl⟩
    exact ⟨it, hit, by simp [hc]⟩

/-- C5 amended: on every re-run of a for-binding, every cached entry whose
track-key is absent from the new key set has its cleanup handlers run, each
of its nodes scheduled for removal, and is dropped from the keyed cache;
and every key that does occur in the new sequence with items that are all
`itemsEqual` to its cached item keeps its cache entry (nodes, cleanup, item)
completely untouched — it is not torn down.  (The original claim's further
clause, that non-absent keys' nodes are left untouched in their prior
relative order in the document, is refuted by
the reorder counterexample: position updates may still move them.) -/
theorem c5_absent_keys_torn_down_survivors_kept (cfg : ForCfg) (rst : RState)
    (imap : List (Nat × Entry)) (dom : List Nat) (items : List Item)
    (k : Nat) (e : Entry) (he : mapGet imap k = some e) :
    ((∀ it ∈ items, cfg.template it ≠ [] → cfg.trackBy it ≠ k) →
      (∀ c ∈ e.cleanup, c ∈ (forStep cfg rst imap dom items).cleanupsRun) ∧
      (∀ n ∈ e.nodes, n ∈ (forStep cfg rst imap dom items).removals) ∧
      mapGet (forStep cfg rst imap dom items).imap k = none) ∧
    ((∃ it ∈ items, cfg.template it ≠ [] ∧ cfg.trackBy it = k) →
      (∀ it ∈ items, cfg.trackBy it = k → itemsEqual e.item it = true) →
      mapGet (forStep cfg rst imap dom items).imap k = some e) := by
  constructor
  · intro habs
    have hkeys : ∀ kit ∈ items.flatMap (fun it =>
        if (cfg.template it).length = 0 then []
        else [(cfg.trackBy it, it, cfg.template it)]), kit.1 ≠ k := by
      intro kit hkit
      obtain ⟨it, hit, hc, rfl⟩ := (processed_mem cfg items kit).mp hkit
      exact habs it hit (fun hnil => hc (by rw [hnil]; rfl))
    have hknk : k ∉ (items.flatMap (fun it =>
        if (cfg.template it).length = 0 then []
        else [(cfg.trackBy it, it, cfg.template it)])).map (fun x => x.1) := by
      intro hmem
      obtain ⟨x, hx, hx1⟩ := List.mem_map.mp hmem
      exact hkeys x hx hx1
    have h1 : mapGet (procLoop cfg dom (items.flatMap (fun it =>
        if (cfg.template it).length = 0 then []
        else [(cfg.trackBy it, it, cfg.template it)])) 0
        ⟨rst, imap, dom.filter (fun n => n ≠ cfg.anchor), [], []⟩).imap k =
        some e := by
      rw [procLoop_imap_not_mem cfg dom k _ _ _ hkeys]
      exact he
    simp only [forStep]
    refine ⟨?_, ?_, ?_⟩
    · intro c hc
      exact List.mem_append_right _
        ((removalLoop_absent _ k e hknk _ h1).1 c hc)
    · intro n hn
      exact (removalLoop_absent _ k e hknk _ h1).2 n hn
    · exact removalLoop_mapGet_none _ k hknk _
  · rintro ⟨it0, hit0, hc0, hk0⟩ hall
    have hallp : ∀ kit ∈ items.flatMap (fun it =>
        if (cfg.template it).length = 0 then []
        else [(cfg.trackBy it, it, cfg.template it)]),
        kit.1 = k → itemsEqual e.item kit.2.1 = true := by
      intro kit hkit hk1
      obtain ⟨it, hit, hc, rfl⟩ := (processed_mem cfg items kit).mp hkit
      exact hall it hit hk1
    have hknk : k ∈ (items.flatMap (fun it =>
        if (cfg.template it).length = 0 then []
        else [(cfg.trackBy it, it, cfg.template it)])).map (fun x => x.1) := by
      refine List.mem_map.mpr ⟨(cfg.trackBy it0, it0, cfg.template it0), ?_, hk0⟩
      exact (processed_mem cfg items _).mpr
        ⟨it0, hit0, fun h => hc0 (List.length_eq_zero.mp h), rfl⟩
    simp only [forStep]
    rw [removalLoop_mapGet_mem _ k hknk]
    exact procLoop_imap_equal cfg dom k e _ 0 _ he hallp

/-- C5 amended witness: re-running over `[itemQ]` after `[itemP, itemQ]` —
key 1 is absent: its node 0 is scheduled for removal and the key is dropped;
key 2 occurs with an unchanged item: its entry (node 1) is kept untouched. -/
theorem c5_absent_keys_torn_down_survivors_kept_witness :
    mapGet c5Run1.imap 1 =
      some ⟨[0], [], itemP, [Instr.static 1 201]⟩ ∧
    mapGet c5Run1.imap 2 =
      some ⟨[1], [], itemQ, [Instr.static 2 202]⟩ ∧
    ((∀ n ∈ ([0] : List Nat),
        n ∈ (forStep demoCfg c5Run1.rst c5Run1.imap c5Dom1 [itemQ]).removals) ∧
      mapGet (forStep demoCfg c5Run1.rst c5Run1.imap c5Dom1 [itemQ]).imap 1 =
        none) ∧
    mapGet (forStep demoCfg c5Run1.rst c5Run1.imap c5Dom1 [itemQ]).imap 2 =
      some ⟨[1], [], itemQ, [Instr.static 2 202]⟩ := by
  have habsent := (c5_absent_keys_torn_down_survivors_kept demoCfg c5Run1.rst
    c5Run1.imap c5Dom1 [itemQ] 1 ⟨[0], [], itemP, [Instr.static 1 201]⟩
    rfl).1 (by
      intro it hit _
      rw [List.mem_singleton] at hit
      subst hit
      decide)
  have hkept := (c5_absent_keys_torn_down_survivors_kept demoCfg c5Run1.rst
    c5Run1.imap c5Dom1 [itemQ] 2 ⟨[1], [], itemQ, [Instr.static 2 202]⟩
    rfl).2
    ⟨itemQ, List.mem_singleton_self itemQ,
      by simp [demoCfg, demoTemplate], by decide⟩
    (by
      intro it hit _
      rw [List.mem_singleton] at hit
      subst hit
      decide)
  exact ⟨rfl, rfl, ⟨habsent.2.1, habsent.2.2⟩, hkept⟩
